import Mathlib

/-!
Verification of the Manhattan-neighborhood counting module (`src/manhattan.py`).

The module computes, for a 2D grid of values, the number of distinct cells
within a given Manhattan (L1) distance of at least one positive cell,
optionally treating the grid as toroidal.

We embed the Python code shallowly:
* a numpy ndarray becomes `NDArray`: a shape vector plus its flat row-major
  data buffer (cells fixed to `Int`, matching the integer grids of the tests);
* Python sets of coordinate pairs become `Finset (Int × Int)`;
* `raise ValueError` becomes `Except.error`;
* Python `%` on ints with a positive modulus agrees with `Int.emod`.
-/

/-- A numpy-style n-dimensional array: a shape vector together with the flat
row-major (C-order) data buffer. -/
structure NDArray where
  shape : List Nat
  data : List Int

/-- Well-formedness of an ndarray: the buffer holds exactly one entry per
index tuple of the shape. -/
def NDArray.wf (X : NDArray) : Prop := X.data.length = X.shape.prod

/-- Embeds `array_to_pos_center_coordinates` (manhattan.py line 7): the
coordinates of the strictly positive entries of a 2-D array, in row-major
order, as produced by `np.nonzero(X > 0)` followed by `zip`.  Flat index `k`
of a 2-D array of `cols` columns corresponds to cell `(k / cols, k % cols)`. -/
def array_to_pos_center_coordinates (X : NDArray) : List (Int × Int) :=
  let cols := X.shape.getD 1 0
  (List.range X.data.length).filterMap (fun k =>
    if 0 < X.data.getD k 0 then
      some (((k / cols : Nat) : Int), ((k % cols : Nat) : Int))
    else none)

/-- The four reflected points `(x±d_x, y±d_y)` inserted by the loop body of
`manhattan_neighborhood` (manhattan.py lines 49-56). -/
def quadrant_points (x y d_x d_y : Int) : Finset (Int × Int) :=
  {(x + d_x, y + d_y), (x - d_x, y + d_y), (x + d_x, y - d_y), (x - d_x, y - d_y)}

/-- Embeds `manhattan_neighborhood` (manhattan.py line 15).  The Python loop
`for d_x in range(0, radius + 1)` runs over `0, ..., radius` and is empty for
negative `radius`, hence `(radius + 1).toNat` iterations.  The chained Python
comparison `radius >= d_x + d_y > 0` means `radius ≥ d_x + d_y ∧ d_x + d_y > 0`. -/
def manhattan_neighborhood (coor : Int × Int) (radius : Int)
    (prune_wraparound : Bool) (size : Int × Int) : Finset (Int × Int) :=
  let x := coor.1
  let y := coor.2
  let neighborhood : Finset (Int × Int) :=
    (List.range (radius + 1).toNat).foldl (fun acc (d_x : Nat) =>
      (List.range (radius + 1).toNat).foldl (fun acc2 (d_y : Nat) =>
        if radius ≥ (d_x : Int) + (d_y : Int) ∧ (d_x : Int) + (d_y : Int) > 0 then
          acc2 ∪ quadrant_points x y (d_x : Int) (d_y : Int)
        else acc2) acc) ∅
  if prune_wraparound then
    let x_max := size.1 - 1
    let y_max := size.2 - 1
    neighborhood.filter (fun p => 0 ≤ p.1 ∧ p.1 ≤ x_max ∧ 0 ≤ p.2 ∧ p.2 ≤ y_max)
  else
    neighborhood

/-- Embeds `reduce(operator.or_, sets)` (manhattan.py line 99): left fold of
set union over a list of sets.  The empty case is unreachable at the call
site (the caller returns early when there are no centers). -/
def reduce_union (sets : List (Finset (Int × Int))) : Finset (Int × Int) :=
  match sets with
  | [] => ∅
  | s :: rest => rest.foldl (fun acc t => acc ∪ t) s

/-- Embeds `count_positive_neighborhood_size` (manhattan.py line 69).
`raise ValueError` becomes `Except.error`; `all_neighbors.update(...)` is set
union; the wraparound fold `(x % x_max, y % y_max)` is a `Finset.image` (a
Python set comprehension re-deduplicates, as `image` does). -/
def count_positive_neighborhood_size (X : NDArray) (radius : Int)
    (wraparound : Bool) : Except String Nat :=
  if X.shape.length ≠ 2 then
    Except.error "X must be a 2-dimensional array"
  else
    let positive_centers := array_to_pos_center_coordinates X
    if positive_centers.length = 0 then
      Except.ok 0
    else
      let sz : Int × Int := ((X.shape.getD 0 0 : Int), (X.shape.getD 1 0 : Int))
      let all_neighbors := reduce_union (positive_centers.map (fun center =>
        manhattan_neighborhood center radius (!wraparound) sz))
      let with_centers := all_neighbors ∪ positive_centers.toFinset
      let x_max : Int := X.shape.getD 0 0
      let y_max : Int := X.shape.getD 1 0
      let final := if wraparound then
          with_centers.image (fun p => (p.1 % x_max, p.2 % y_max))
        else with_centers
      Except.ok final.card

/-- Embeds the test helper `centers_to_array` (test_main.py line 8): a grid of
shape `(height, width)` holding 1 at each listed `(row, col)` center and 0
elsewhere, flattened in row-major order. -/
def centers_to_array (centers : List (Nat × Nat)) (width height : Nat) : NDArray :=
  ⟨[height, width], (List.range (height * width)).map (fun k =>
    if (k / width, k % width) ∈ centers then 1 else 0)⟩

/-- Manhattan (L1) distance between two coordinates (spec glossary). -/
def manhattanDist (p q : Int × Int) : Int := |p.1 - q.1| + |p.2 - q.2|

/-- The coordinate set `count_positive_neighborhood_size` builds before the
wraparound fold: the union of the unpruned per-center neighborhoods together
with the centers themselves (manhattan.py lines 99-110, `wraparound` case). -/
def unfolded_coordinate_set (X : NDArray) (radius : Int) : Finset (Int × Int) :=
  reduce_union ((array_to_pos_center_coordinates X).map (fun center =>
      manhattan_neighborhood center radius false
        ((X.shape.getD 0 0 : Int), (X.shape.getD 1 0 : Int)))) ∪
    (array_to_pos_center_coordinates X).toFinset

/-- The coordinate set `count_positive_neighborhood_size` counts in the
non-wraparound case: pruned per-center neighborhoods unioned with the
centers (manhattan.py lines 99-110). -/
def pruned_coordinate_set (X : NDArray) (radius : Int) : Finset (Int × Int) :=
  reduce_union ((array_to_pos_center_coordinates X).map (fun center =>
      manhattan_neighborhood center radius true
        ((X.shape.getD 0 0 : Int), (X.shape.getD 1 0 : Int)))) ∪
    (array_to_pos_center_coordinates X).toFinset

/-- The steps of `count_positive_neighborhood_size` after center extraction
(manhattan.py lines 96-120), parametrized by the extracted center list, so
that order-independence in the centers can be stated. -/
def count_from_centers (positive_centers : List (Int × Int)) (sz : Int × Int)
    (radius : Int) (wraparound : Bool) : Nat :=
  if positive_centers.length = 0 then 0
  else
    let all_neighbors := reduce_union (positive_centers.map (fun center =>
      manhattan_neighborhood center radius (!wraparound) sz))
    let with_centers := all_neighbors ∪ positive_centers.toFinset
    let final := if wraparound then
        with_centers.image (fun p => (p.1 % sz.1, p.2 % sz.2))
      else with_centers
    final.card

/-- The coordinate set `count_positive_neighborhood_size` counts in the
wraparound case: the unfolded set with every coordinate folded into bounds by
`(x % x_max, y % y_max)` (manhattan.py lines 114-118). -/
def folded_coordinate_set (X : NDArray) (radius : Int) : Finset (Int × Int) :=
  (unfolded_coordinate_set X radius).image
    (fun p => (p.1 % (X.shape.getD 0 0 : Int), p.2 % (X.shape.getD 1 0 : Int)))

/-- Number of strictly positive cells of the grid. -/
def countPositive (X : NDArray) : Nat := X.data.countP (fun v => decide (0 < v))

/-- Row-major transpose of a 2-D ndarray: shape `(h, w)` becomes `(w, h)` and
cell `(j, i)` of the result holds cell `(i, j)` of the input. -/
def NDArray.transpose (X : NDArray) : NDArray :=
  let h := X.shape.getD 0 0
  let w := X.shape.getD 1 0
  ⟨[w, h], (List.range (w * h)).map (fun k =>
    X.data.getD ((k % h) * w + (k / h)) 0)⟩

/-! ### Membership in accumulated unions -/

theorem foldl_union_from {α β : Type} [DecidableEq α] (f : β → Finset α) :
    ∀ (l : List β) (init : Finset α),
      l.foldl (fun acc a => acc ∪ f a) init = init ∪ l.foldl (fun acc a => acc ∪ f a) ∅ := by
  intro l
  induction l with
  | nil => intro init; simp
  | cons a t ih =>
    intro init
    simp only [List.foldl_cons]
    rw [ih (init ∪ f a), ih (∅ ∪ f a), Finset.empty_union, Finset.union_assoc]

theorem mem_foldl_union {α β : Type} [DecidableEq α] (f : β → Finset α)
    (l : List β) (init : Finset α) (b : α) :
    b ∈ l.foldl (fun acc a => acc ∪ f a) init ↔ b ∈ init ∨ ∃ a ∈ l, b ∈ f a := by
  induction l generalizing init with
  | nil => simp
  | cons a t ih =>
    simp only [List.foldl_cons, ih, Finset.mem_union, List.mem_cons]
    constructor
    · rintro (⟨h | h⟩ | ⟨c, hc, hb⟩)
      · exact Or.inl h
      · exact Or.inr ⟨a, Or.inl rfl, h⟩
      · exact Or.inr ⟨c, Or.inr hc, hb⟩
    · rintro (h | ⟨c, rfl | hc, hb⟩)
      · exact Or.inl (Or.inl h)
      · exact Or.inl (Or.inr hb)
      · exact Or.inr ⟨c, hc, hb⟩

theorem mem_reduce_union (l : List (Finset (Int × Int))) (p : Int × Int) :
    p ∈ reduce_union l ↔ ∃ s ∈ l, p ∈ s := by
  cases l with
  | nil => simp [reduce_union]
  | cons s rest =>
    have h := mem_foldl_union (fun t : Finset (Int × Int) => t) rest s p
    simp only [reduce_union]
    rw [h]
    simp only [List.mem_cons]
    constructor
    · rintro (hp | ⟨t, ht, hpt⟩)
      · exact ⟨s, Or.inl rfl, hp⟩
      · exact ⟨t, Or.inr ht, hpt⟩
    · rintro ⟨t, rfl | ht, hpt⟩
      · exact Or.inl hpt
      · exact Or.inr ⟨t, ht, hpt⟩

/-! ### Characterizing `manhattan_neighborhood` -/

theorem mem_quadrant_points (x y d_x d_y : Int) (p : Int × Int) :
    p ∈ quadrant_points x y d_x d_y ↔
      (p.1 = x + d_x ∨ p.1 = x - d_x) ∧ (p.2 = y + d_y ∨ p.2 = y - d_y) := by
  obtain ⟨a, b⟩ := p
  simp only [quadrant_points, Finset.mem_insert, Finset.mem_singleton, Prod.mk.injEq]
  tauto

theorem mem_nested_ite_foldl {n : Nat} (C : Nat → Nat → Prop)
    [inst : ∀ a b, Decidable (C a b)] (q : Nat → Nat → Finset (Int × Int))
    (p : Int × Int) :
    p ∈ (List.range n).foldl (fun (acc : Finset (Int × Int)) (d_x : Nat) =>
        (List.range n).foldl (fun (acc2 : Finset (Int × Int)) (d_y : Nat) =>
          if C d_x d_y then acc2 ∪ q d_x d_y else acc2) acc) ∅ ↔
      ∃ d_x d_y : Nat, d_x < n ∧ d_y < n ∧ C d_x d_y ∧ p ∈ q d_x d_y := by
  have hbody : ∀ (d_x : Nat) (acc2 : Finset (Int × Int)) (d_y : Nat),
      (if C d_x d_y then acc2 ∪ q d_x d_y else acc2) =
        acc2 ∪ (if C d_x d_y then q d_x d_y else ∅) := by
    intro d_x acc2 d_y
    split
    · rfl
    · rw [Finset.union_empty]
  have hinner : ∀ (d_x : Nat) (acc : Finset (Int × Int)),
      (List.range n).foldl (fun (acc2 : Finset (Int × Int)) (d_y : Nat) =>
        if C d_x d_y then acc2 ∪ q d_x d_y else acc2) acc =
      acc ∪ (List.range n).foldl (fun (acc2 : Finset (Int × Int)) (d_y : Nat) =>
        acc2 ∪ (if C d_x d_y then q d_x d_y else ∅)) ∅ := by
    intro d_x acc
    rw [List.foldl_ext _ _ acc (fun acc2 d_y _ => hbody d_x acc2 d_y)]
    exact foldl_union_from (fun d_y => if C d_x d_y then q d_x d_y else ∅) _ acc
  rw [List.foldl_ext _ _ (∅ : Finset (Int × Int)) (fun acc d_x _ => hinner d_x acc)]
  have hite : ∀ d_x d_y : Nat,
      p ∈ (if C d_x d_y then q d_x d_y else ∅) ↔ C d_x d_y ∧ p ∈ q d_x d_y := by
    intro d_x d_y
    split
    case isTrue h => simp [h]
    case isFalse h => simp [h]
  rw [mem_foldl_union]
  simp only [Finset.not_mem_empty, false_or, List.mem_range, mem_foldl_union, hite]
  constructor
  · rintro ⟨d_x, h1, d_y, h2, h3, h4⟩
    exact ⟨d_x, d_y, h1, h2, h3, h4⟩
  · rintro ⟨d_x, d_y, h1, h2, h3, h4⟩
    exact ⟨d_x, h1, d_y, h2, h3, h4⟩

theorem manhattan_neighborhood_false_eq (coor : Int × Int) (radius : Int)
    (size : Int × Int) :
    manhattan_neighborhood coor radius false size =
      (List.range (radius + 1).toNat).foldl (fun (acc : Finset (Int × Int)) (d_x : Nat) =>
        (List.range (radius + 1).toNat).foldl (fun (acc2 : Finset (Int × Int)) (d_y : Nat) =>
          if radius ≥ (d_x : Int) + (d_y : Int) ∧ (d_x : Int) + (d_y : Int) > 0 then
            acc2 ∪ quadrant_points coor.1 coor.2 (d_x : Int) (d_y : Int)
          else acc2) acc) ∅ := rfl

theorem mem_manhattan_neighborhood_unpruned (coor : Int × Int) (radius : Int)
    (size : Int × Int) (p : Int × Int) :
    p ∈ manhattan_neighborhood coor radius false size ↔
      ∃ d_x d_y : Nat, (d_x : Int) + (d_y : Int) ≤ radius ∧
        0 < (d_x : Int) + (d_y : Int) ∧
        p ∈ quadrant_points coor.1 coor.2 (d_x : Int) (d_y : Int) := by
  have h := mem_nested_ite_foldl (n := (radius + 1).toNat)
    (fun a b => radius ≥ (a : Int) + (b : Int) ∧ (a : Int) + (b : Int) > 0)
    (fun a b => quadrant_points coor.1 coor.2 (a : Int) (b : Int)) p
  rw [manhattan_neighborhood_false_eq]
  constructor
  · intro hp
    obtain ⟨d_x, d_y, _, _, hC, hq⟩ := h.mp hp
    exact ⟨d_x, d_y, hC.1, hC.2, hq⟩
  · rintro ⟨d_x, d_y, hle, hpos, hq⟩
    have hdx : (0 : Int) ≤ (d_x : Int) := Int.natCast_nonneg d_x
    have hdy : (0 : Int) ≤ (d_y : Int) := Int.natCast_nonneg d_y
    have h1 : d_x < (radius + 1).toNat := by omega
    have h2 : d_y < (radius + 1).toNat := by omega
    exact h.mpr ⟨d_x, d_y, h1, h2, ⟨hle, hpos⟩, hq⟩

theorem mem_manhattan_neighborhood_false (coor : Int × Int) (radius : Int)
    (size : Int × Int) (p : Int × Int) :
    p ∈ manhattan_neighborhood coor radius false size ↔
      0 < manhattanDist p coor ∧ manhattanDist p coor ≤ radius := by
  rw [mem_manhattan_neighborhood_unpruned]
  unfold manhattanDist
  constructor
  · rintro ⟨d_x, d_y, hle, hpos, hmem⟩
    rw [mem_quadrant_points] at hmem
    obtain ⟨h1, h2⟩ := hmem
    have e1 : |p.1 - coor.1| = (d_x : Int) := by
      have : (0 : Int) ≤ d_x := Int.natCast_nonneg d_x
      rcases h1 with h | h <;> rw [h] <;>
        first
          | rw [show coor.1 + (d_x : Int) - coor.1 = (d_x : Int) by ring, abs_of_nonneg this]
          | rw [show coor.1 - (d_x : Int) - coor.1 = -(d_x : Int) by ring, abs_neg,
              abs_of_nonneg this]
    have e2 : |p.2 - coor.2| = (d_y : Int) := by
      have : (0 : Int) ≤ d_y := Int.natCast_nonneg d_y
      rcases h2 with h | h <;> rw [h] <;>
        first
          | rw [show coor.2 + (d_y : Int) - coor.2 = (d_y : Int) by ring, abs_of_nonneg this]
          | rw [show coor.2 - (d_y : Int) - coor.2 = -(d_y : Int) by ring, abs_neg,
              abs_of_nonneg this]
    rw [e1, e2]
    exact ⟨hpos, hle⟩
  · rintro ⟨hpos, hle⟩
    have ha : (0 : Int) ≤ |p.1 - coor.1| := abs_nonneg _
    have hb : (0 : Int) ≤ |p.2 - coor.2| := abs_nonneg _
    refine ⟨|p.1 - coor.1|.toNat, |p.2 - coor.2|.toNat, ?_, ?_, ?_⟩
    · rw [Int.toNat_of_nonneg ha, Int.toNat_of_nonneg hb]; exact hle
    · rw [Int.toNat_of_nonneg ha, Int.toNat_of_nonneg hb]; exact hpos
    · rw [mem_quadrant_points, Int.toNat_of_nonneg ha, Int.toNat_of_nonneg hb]
      constructor
      · rcases (abs_eq ha).mp rfl with h | h
        · left; omega
        · right; omega
      · rcases (abs_eq hb).mp rfl with h | h
        · left; omega
        · right; omega

theorem manhattan_neighborhood_true_eq (coor : Int × Int) (radius : Int)
    (size : Int × Int) :
    manhattan_neighborhood coor radius true size =
      (manhattan_neighborhood coor radius false size).filter
        (fun p => 0 ≤ p.1 ∧ p.1 ≤ size.1 - 1 ∧ 0 ≤ p.2 ∧ p.2 ≤ size.2 - 1) := by
  simp [manhattan_neighborhood]

theorem mem_manhattan_neighborhood_true (coor : Int × Int) (radius : Int)
    (size : Int × Int) (p : Int × Int) :
    p ∈ manhattan_neighborhood coor radius true size ↔
      (0 < manhattanDist p coor ∧ manhattanDist p coor ≤ radius) ∧
        (0 ≤ p.1 ∧ p.1 ≤ size.1 - 1 ∧ 0 ≤ p.2 ∧ p.2 ≤ size.2 - 1) := by
  rw [manhattan_neighborhood_true_eq, Finset.mem_filter,
    mem_manhattan_neighborhood_false]

theorem manhattan_neighborhood_of_nonpos (coor : Int × Int) (radius : Int)
    (prune : Bool) (size : Int × Int) (h : radius ≤ 0) :
    manhattan_neighborhood coor radius prune size = ∅ := by
  have hfalse : manhattan_neighborhood coor radius false size = ∅ := by
    rw [Finset.eq_empty_iff_forall_not_mem]
    intro p hp
    rw [mem_manhattan_neighborhood_false] at hp
    omega
  cases prune
  · exact hfalse
  · rw [manhattan_neighborhood_true_eq, hfalse, Finset.filter_empty]

/-! ### Characterizing the extracted centers -/

theorem filterMap_if_eq_map_filter {α β : Type} (p : α → Prop) [DecidablePred p]
    (g : α → β) (l : List α) :
    l.filterMap (fun a => if p a then some (g a) else none) =
      (l.filter (fun a => decide (p a))).map g := by
  induction l with
  | nil => rfl
  | cons a t ih =>
    by_cases h : p a
    · simp [List.filterMap_cons, List.filter_cons, h, ih]
    · simp [List.filterMap_cons, List.filter_cons, h, ih]

theorem array_to_pos_center_coordinates_eq (X : NDArray) :
    array_to_pos_center_coordinates X =
      ((List.range X.data.length).filter (fun k => decide (0 < X.data.getD k 0))).map
        (fun k => (((k / X.shape.getD 1 0 : Nat) : Int),
          ((k % X.shape.getD 1 0 : Nat) : Int))) := by
  simp only [array_to_pos_center_coordinates]
  exact filterMap_if_eq_map_filter _ _ _

theorem divmod_pair_injective (m : Nat) : Function.Injective
    (fun k : Nat => (((k / m : Nat) : Int), ((k % m : Nat) : Int))) := by
  intro a b hab
  simp only [Prod.mk.injEq, Int.natCast_inj] at hab
  obtain ⟨h1, h2⟩ := hab
  have ha := Nat.div_add_mod a m
  have hb := Nat.div_add_mod b m
  have hm : m * (a / m) = m * (b / m) := by rw [h1]
  omega

theorem array_to_pos_center_coordinates_nodup (X : NDArray) :
    (array_to_pos_center_coordinates X).Nodup := by
  rw [array_to_pos_center_coordinates_eq]
  exact List.Nodup.map (divmod_pair_injective _)
    (List.Nodup.filter _ (List.nodup_range _))

theorem countP_range_getD (l : List Int) (p : Int → Bool) :
    (List.range l.length).countP (fun k => p (l.getD k 0)) = l.countP p := by
  induction l with
  | nil => rfl
  | cons a t ih =>
    rw [List.length_cons, List.range_succ_eq_map, List.countP_cons,
      List.countP_cons, List.countP_map]
    have hcomp : ((fun k => p ((a :: t).getD k 0)) ∘ Nat.succ) =
        fun k => p (t.getD k 0) := by
      funext k
      rfl
    rw [hcomp, ih]
    rfl

theorem array_to_pos_center_coordinates_length (X : NDArray) :
    (array_to_pos_center_coordinates X).length = countPositive X := by
  rw [array_to_pos_center_coordinates_eq, List.length_map,
    ← List.countP_eq_length_filter]
  exact countP_range_getD X.data (fun v => decide (0 < v))

theorem mem_array_to_pos_center_coordinates (X : NDArray) (c : Int × Int) :
    c ∈ array_to_pos_center_coordinates X ↔
      ∃ k : Nat, k < X.data.length ∧ 0 < X.data.getD k 0 ∧
        c = (((k / X.shape.getD 1 0 : Nat) : Int),
          ((k % X.shape.getD 1 0 : Nat) : Int)) := by
  rw [array_to_pos_center_coordinates_eq]
  simp only [List.mem_map, List.mem_filter, List.mem_range, decide_eq_true_eq]
  constructor
  · rintro ⟨k, ⟨hk, hp⟩, rfl⟩
    exact ⟨k, hk, hp, rfl⟩
  · rintro ⟨k, hk, hp, rfl⟩
    exact ⟨k, ⟨hk, hp⟩, rfl⟩

theorem shape_two_exists (X : NDArray) (h2 : X.shape.length = 2) :
    ∃ h w : Nat, X.shape = [h, w] := by
  cases hs : X.shape with
  | nil => rw [hs] at h2; simp at h2
  | cons a t =>
    cases t with
    | nil => rw [hs] at h2; simp at h2
    | cons b u =>
      cases u with
      | nil => exact ⟨a, b, rfl⟩
      | cons c v => rw [hs] at h2; simp at h2

theorem wf_prod_two (X : NDArray) (h w : Nat) (hs : X.shape = [h, w])
    (hwf : X.wf) : X.data.length = h * w := by
  rw [NDArray.wf, hs] at hwf
  simpa using hwf

theorem mem_centers_coords (X : NDArray) (h w : Nat) (hs : X.shape = [h, w])
    (hlen : X.data.length = h * w) (c : Int × Int) :
    c ∈ array_to_pos_center_coordinates X ↔
      ∃ i j : Nat, i < h ∧ j < w ∧ 0 < X.data.getD (i * w + j) 0 ∧
        c = ((i : Int), (j : Int)) := by
  rw [mem_array_to_pos_center_coordinates]
  have hcols : X.shape.getD 1 0 = w := by rw [hs]; rfl
  rw [hcols, hlen]
  constructor
  · rintro ⟨k, hk, hp, rfl⟩
    have hw : 0 < w := by
      rcases Nat.eq_zero_or_pos w with h0 | h0
      · subst h0; simp at hk
      · exact h0
    refine ⟨k / w, k % w, ?_, Nat.mod_lt _ hw, ?_, rfl⟩
    · exact (Nat.div_lt_iff_lt_mul hw).mpr hk
    · rw [Nat.div_add_mod' k w]
      exact hp
  · rintro ⟨i, j, hi, hj, hp, rfl⟩
    have hw : 0 < w := Nat.pos_of_ne_zero (by omega)
    refine ⟨i * w + j, ?_, hp, ?_⟩
    · have h1 : i * w + j < (i + 1) * w := by rw [Nat.succ_mul]; omega
      have h2 : (i + 1) * w ≤ h * w := Nat.mul_le_mul_right w hi
      omega
    · have hdiv : (i * w + j) / w = i := by
        rw [Nat.mul_comm i w, Nat.mul_add_div hw, Nat.div_eq_of_lt hj]
        omega
      have hmod : (i * w + j) % w = j := by
        rw [Nat.mul_comm i w, Nat.mul_add_mod, Nat.mod_eq_of_lt hj]
      rw [hdiv, hmod]

theorem centers_in_bounds (X : NDArray) (h w : Nat) (hs : X.shape = [h, w])
    (hlen : X.data.length = h * w) (c : Int × Int)
    (hc : c ∈ array_to_pos_center_coordinates X) :
    0 ≤ c.1 ∧ c.1 < (h : Int) ∧ 0 ≤ c.2 ∧ c.2 < (w : Int) := by
  rw [mem_centers_coords X h w hs hlen] at hc
  obtain ⟨i, j, hi, hj, _, rfl⟩ := hc
  refine ⟨Int.natCast_nonneg i, ?_, Int.natCast_nonneg j, ?_⟩
  · show (i : Int) < (h : Int)
    exact_mod_cast hi
  · show (j : Int) < (w : Int)
    exact_mod_cast hj

/-! ### Structure of `count_positive_neighborhood_size` -/

theorem count_eq_from_centers (X : NDArray) (radius : Int) (wraparound : Bool) :
    count_positive_neighborhood_size X radius wraparound =
      if X.shape.length ≠ 2 then Except.error "X must be a 2-dimensional array"
      else Except.ok (count_from_centers (array_to_pos_center_coordinates X)
        ((X.shape.getD 0 0 : Int), (X.shape.getD 1 0 : Int)) radius wraparound) := by
  simp only [count_positive_neighborhood_size, count_from_centers]
  split
  · rfl
  · by_cases hlen : (array_to_pos_center_coordinates X).length = 0
    · rw [if_pos hlen, if_pos hlen]
    · rw [if_neg hlen, if_neg hlen]

theorem count_from_centers_false_eq (pc : List (Int × Int)) (sz : Int × Int)
    (radius : Int) :
    count_from_centers pc sz radius false =
      (reduce_union (pc.map (fun center =>
        manhattan_neighborhood center radius true sz)) ∪ pc.toFinset).card := by
  simp only [count_from_centers]
  split
  case isTrue hlen =>
    have : pc = [] := List.length_eq_zero.mp hlen
    subst this
    simp [reduce_union]
  case isFalse hlen =>
    simp only [Bool.not_false, Bool.false_eq_true, if_false]

theorem count_from_centers_true_eq (pc : List (Int × Int)) (sz : Int × Int)
    (radius : Int) :
    count_from_centers pc sz radius true =
      ((reduce_union (pc.map (fun center =>
          manhattan_neighborhood center radius false sz)) ∪ pc.toFinset).image
        (fun p => (p.1 % sz.1, p.2 % sz.2))).card := by
  simp only [count_from_centers]
  split
  case isTrue hlen =>
    have : pc = [] := List.length_eq_zero.mp hlen
    subst this
    simp [reduce_union]
  case isFalse hlen =>
    simp only [Bool.not_true, if_true]

theorem count_eq_card_pruned (X : NDArray) (radius : Int)
    (h2 : X.shape.length = 2) :
    count_positive_neighborhood_size X radius false =
      Except.ok (pruned_coordinate_set X radius).card := by
  rw [count_eq_from_centers, if_neg (by simp [h2]), count_from_centers_false_eq]
  rfl

theorem count_eq_card_folded (X : NDArray) (radius : Int)
    (h2 : X.shape.length = 2) :
    count_positive_neighborhood_size X radius true =
      Except.ok (folded_coordinate_set X radius).card := by
  rw [count_eq_from_centers, if_neg (by simp [h2]), count_from_centers_true_eq]
  rfl

theorem mem_pruned_coordinate_set (X : NDArray) (radius : Int) (p : Int × Int) :
    p ∈ pruned_coordinate_set X radius ↔
      (∃ c ∈ array_to_pos_center_coordinates X,
        p ∈ manhattan_neighborhood c radius true
          ((X.shape.getD 0 0 : Int), (X.shape.getD 1 0 : Int))) ∨
      p ∈ array_to_pos_center_coordinates X := by
  simp only [pruned_coordinate_set, Finset.mem_union, mem_reduce_union,
    List.mem_map, List.mem_toFinset]
  constructor
  · rintro (⟨s, ⟨c, hc, rfl⟩, hp⟩ | hp)
    · exact Or.inl ⟨c, hc, hp⟩
    · exact Or.inr hp
  · rintro (⟨c, hc, hp⟩ | hp)
    · exact Or.inl ⟨_, ⟨c, hc, rfl⟩, hp⟩
    · exact Or.inr hp

theorem mem_unfolded_coordinate_set (X : NDArray) (radius : Int) (p : Int × Int) :
    p ∈ unfolded_coordinate_set X radius ↔
      (∃ c ∈ array_to_pos_center_coordinates X,
        p ∈ manhattan_neighborhood c radius false
          ((X.shape.getD 0 0 : Int), (X.shape.getD 1 0 : Int))) ∨
      p ∈ array_to_pos_center_coordinates X := by
  simp only [unfolded_coordinate_set, Finset.mem_union, mem_reduce_union,
    List.mem_map, List.mem_toFinset]
  constructor
  · rintro (⟨s, ⟨c, hc, rfl⟩, hp⟩ | hp)
    · exact Or.inl ⟨c, hc, hp⟩
    · exact Or.inr hp
  · rintro (⟨c, hc, hp⟩ | hp)
    · exact Or.inl ⟨_, ⟨c, hc, rfl⟩, hp⟩
    · exact Or.inr hp

/-! ### Radius at most zero: only the centers are counted -/

theorem pruned_set_of_nonpos (X : NDArray) (radius : Int) (hr : radius ≤ 0) :
    pruned_coordinate_set X radius = (array_to_pos_center_coordinates X).toFinset := by
  ext p
  rw [mem_pruned_coordinate_set, List.mem_toFinset]
  constructor
  · rintro (⟨c, _, hp⟩ | hp)
    · rw [manhattan_neighborhood_of_nonpos c radius true _ hr] at hp
      exact absurd hp (Finset.not_mem_empty p)
    · exact hp
  · intro hp
    exact Or.inr hp

theorem unfolded_set_of_nonpos (X : NDArray) (radius : Int) (hr : radius ≤ 0) :
    unfolded_coordinate_set X radius =
      (array_to_pos_center_coordinates X).toFinset := by
  ext p
  rw [mem_unfolded_coordinate_set, List.mem_toFinset]
  constructor
  · rintro (⟨c, _, hp⟩ | hp)
    · rw [manhattan_neighborhood_of_nonpos c radius false _ hr] at hp
      exact absurd hp (Finset.not_mem_empty p)
    · exact hp
  · intro hp
    exact Or.inr hp

theorem card_centers_toFinset (X : NDArray) :
    (array_to_pos_center_coordinates X).toFinset.card = countPositive X := by
  rw [List.toFinset_card_of_nodup (array_to_pos_center_coordinates_nodup X),
    array_to_pos_center_coordinates_length]

theorem count_nonpos_radius_false (X : NDArray) (radius : Int)
    (h2 : X.shape.length = 2) (hr : radius ≤ 0) :
    count_positive_neighborhood_size X radius false =
      Except.ok (countPositive X) := by
  rw [count_eq_card_pruned X radius h2, pruned_set_of_nonpos X radius hr,
    card_centers_toFinset]

theorem fold_image_centers (X : NDArray) (h w : Nat) (hs : X.shape = [h, w])
    (hlen : X.data.length = h * w) :
    (array_to_pos_center_coordinates X).toFinset.image
        (fun p : Int × Int =>
          (p.1 % (X.shape.getD 0 0 : Int), p.2 % (X.shape.getD 1 0 : Int))) =
      (array_to_pos_center_coordinates X).toFinset := by
  have hid : ∀ c ∈ (array_to_pos_center_coordinates X).toFinset,
      (c.1 % (X.shape.getD 0 0 : Int), c.2 % (X.shape.getD 1 0 : Int)) = c := by
    intro c hc
    rw [List.mem_toFinset] at hc
    obtain ⟨hc1, hc2, hc3, hc4⟩ := centers_in_bounds X h w hs hlen c hc
    have hh : X.shape.getD 0 0 = h := by rw [hs]; rfl
    have hw2 : X.shape.getD 1 0 = w := by rw [hs]; rfl
    rw [hh, hw2, Int.emod_eq_of_lt hc1 hc2, Int.emod_eq_of_lt hc3 hc4]
  calc (array_to_pos_center_coordinates X).toFinset.image _
      = (array_to_pos_center_coordinates X).toFinset.image id :=
        Finset.image_congr (fun c hc => hid c hc)
    _ = (array_to_pos_center_coordinates X).toFinset := Finset.image_id

theorem count_nonpos_radius_true (X : NDArray) (radius : Int)
    (h2 : X.shape.length = 2) (hwf : X.wf) (hr : radius ≤ 0) :
    count_positive_neighborhood_size X radius true =
      Except.ok (countPositive X) := by
  obtain ⟨h, w, hs⟩ := shape_two_exists X h2
  have hlen := wf_prod_two X h w hs hwf
  rw [count_eq_card_folded X radius h2]
  unfold folded_coordinate_set
  rw [unfolded_set_of_nonpos X radius hr, fold_image_centers X h w hs hlen,
    card_centers_toFinset]

/-! ### Order-independence in the centers -/

theorem union_set_perm (l1 l2 : List (Int × Int)) (hp : l1.Perm l2)
    (f : Int × Int → Finset (Int × Int)) :
    reduce_union (l1.map f) ∪ l1.toFinset =
      reduce_union (l2.map f) ∪ l2.toFinset := by
  ext p
  simp only [Finset.mem_union, mem_reduce_union, List.mem_map,
    List.mem_toFinset, hp.mem_iff]

theorem count_from_centers_perm (l1 l2 : List (Int × Int)) (hp : l1.Perm l2)
    (sz : Int × Int) (radius : Int) (wraparound : Bool) :
    count_from_centers l1 sz radius wraparound =
      count_from_centers l2 sz radius wraparound := by
  cases wraparound
  · rw [count_from_centers_false_eq, count_from_centers_false_eq,
      union_set_perm l1 l2 hp]
  · rw [count_from_centers_true_eq, count_from_centers_true_eq,
      union_set_perm l1 l2 hp]

/-! ### Transposing the grid -/

theorem transpose_shape (X : NDArray) (h w : Nat) (hs : X.shape = [h, w]) :
    (X.transpose).shape = [w, h] := by
  simp [NDArray.transpose, hs]

theorem transpose_data_length (X : NDArray) (h w : Nat) (hs : X.shape = [h, w]) :
    (X.transpose).data.length = w * h := by
  simp [NDArray.transpose, hs]

theorem transpose_data_getD (X : NDArray) (h w : Nat) (hs : X.shape = [h, w])
    (i j : Nat) (hi : i < w) (hj : j < h) :
    (X.transpose).data.getD (i * h + j) 0 = X.data.getD (j * w + i) 0 := by
  have hh : X.shape.getD 0 0 = h := by rw [hs]; rfl
  have hw2 : X.shape.getD 1 0 = w := by rw [hs]; rfl
  have hh0 : 0 < h := by omega
  have hkbound : i * h + j < w * h := by
    have h1 : i * h + j < (i + 1) * h := by rw [Nat.succ_mul]; omega
    have h2 : (i + 1) * h ≤ w * h := Nat.mul_le_mul_right h hi
    omega
  simp only [NDArray.transpose, hh, hw2]
  rw [List.getD_eq_getElem?_getD,
    List.getElem?_eq_getElem (by simpa using hkbound), Option.getD_some]
  simp only [List.getElem_map, List.getElem_range]
  have hmod : (i * h + j) % h = j := by
    rw [Nat.mul_comm i h, Nat.mul_add_mod, Nat.mod_eq_of_lt hj]
  have hdiv : (i * h + j) / h = i := by
    rw [Nat.mul_comm i h, Nat.mul_add_div hh0, Nat.div_eq_of_lt hj]
    omega
  rw [hmod, hdiv]

theorem centers_transpose (X : NDArray) (h w : Nat) (hs : X.shape = [h, w])
    (hlen : X.data.length = h * w) (c : Int × Int) :
    c ∈ array_to_pos_center_coordinates X.transpose ↔
      Prod.swap c ∈ array_to_pos_center_coordinates X := by
  rw [mem_centers_coords X.transpose w h (transpose_shape X h w hs)
      (transpose_data_length X h w hs),
    mem_centers_coords X h w hs hlen]
  constructor
  · rintro ⟨i, j, hi, hj, hp, rfl⟩
    rw [transpose_data_getD X h w hs i j hi hj] at hp
    exact ⟨j, i, hj, hi, hp, rfl⟩
  · rintro ⟨i, j, hi, hj, hp, hc⟩
    have hcc : c = ((j : Int), (i : Int)) := by
      have hswap := congrArg Prod.swap hc
      rw [Prod.swap_swap] at hswap
      rw [hswap]
      rfl
    subst hcc
    refine ⟨j, i, hj, hi, ?_, rfl⟩
    rw [transpose_data_getD X h w hs j i hj hi]
    exact hp

theorem mem_manhattan_neighborhood_swap (c : Int × Int) (radius : Int)
    (a b : Int) (p : Int × Int) :
    p ∈ manhattan_neighborhood c radius true (a, b) ↔
      Prod.swap p ∈ manhattan_neighborhood (Prod.swap c) radius true (b, a) := by
  obtain ⟨p1, p2⟩ := p
  obtain ⟨c1, c2⟩ := c
  rw [mem_manhattan_neighborhood_true, mem_manhattan_neighborhood_true]
  unfold manhattanDist
  simp only [Prod.swap_prod_mk]
  rw [show |p2 - c2| + |p1 - c1| = |p1 - c1| + |p2 - c2| from add_comm _ _]
  tauto

theorem pruned_set_transpose (X : NDArray) (h w : Nat) (hs : X.shape = [h, w])
    (hlen : X.data.length = h * w) (radius : Int) :
    pruned_coordinate_set X.transpose radius =
      (pruned_coordinate_set X radius).image Prod.swap := by
  have hh : X.shape.getD 0 0 = h := by rw [hs]; rfl
  have hw2 : X.shape.getD 1 0 = w := by rw [hs]; rfl
  have hth : (X.transpose).shape.getD 0 0 = w := by
    rw [transpose_shape X h w hs]; rfl
  have htw : (X.transpose).shape.getD 1 0 = h := by
    rw [transpose_shape X h w hs]; rfl
  ext p
  have himg : p ∈ (pruned_coordinate_set X radius).image Prod.swap ↔
      Prod.swap p ∈ pruned_coordinate_set X radius := by
    rw [Finset.mem_image]
    constructor
    · rintro ⟨q, hq, rfl⟩
      rw [Prod.swap_swap]
      exact hq
    · intro hq
      exact ⟨Prod.swap p, hq, Prod.swap_swap p⟩
  rw [mem_pruned_coordinate_set, himg, mem_pruned_coordinate_set, hth, htw, hh, hw2]
  constructor
  · rintro (⟨c, hc, hp⟩ | hp)
    · left
      refine ⟨Prod.swap c, (centers_transpose X h w hs hlen c).mp hc, ?_⟩
      exact (mem_manhattan_neighborhood_swap c radius _ _ p).mp hp
    · exact Or.inr ((centers_transpose X h w hs hlen p).mp hp)
  · rintro (⟨c, hc, hp⟩ | hp)
    · left
      refine ⟨Prod.swap c, ?_, ?_⟩
      · rw [centers_transpose X h w hs hlen]
        rw [Prod.swap_swap]
        exact hc
      · rw [mem_manhattan_neighborhood_swap (Prod.swap c) radius _ _ p,
          Prod.swap_swap]
        exact hp
    · exact Or.inr ((centers_transpose X h w hs hlen p).mpr hp)

/-! ### Every counted cell lies in the grid -/

/-- The set of coordinates of an `h × w` grid. -/
def grid_box (h w : Nat) : Finset (Int × Int) :=
  Finset.Ico (0 : Int) (h : Int) ×ˢ Finset.Ico (0 : Int) (w : Int)

theorem grid_box_card (h w : Nat) : (grid_box h w).card = h * w := by
  rw [grid_box, Finset.card_product, Int.card_Ico, Int.card_Ico]
  simp

theorem pruned_set_subset_box (X : NDArray) (h w : Nat) (hs : X.shape = [h, w])
    (hlen : X.data.length = h * w) (radius : Int) :
    pruned_coordinate_set X radius ⊆ grid_box h w := by
  have hh : X.shape.getD 0 0 = h := by rw [hs]; rfl
  have hw2 : X.shape.getD 1 0 = w := by rw [hs]; rfl
  intro p hp
  rw [mem_pruned_coordinate_set, hh, hw2] at hp
  rw [grid_box, Finset.mem_product, Finset.mem_Ico, Finset.mem_Ico]
  rcases hp with ⟨c, _, hp⟩ | hp
  · rw [mem_manhattan_neighborhood_true] at hp
    obtain ⟨_, hb1, hb2, hb3, hb4⟩ := hp
    refine ⟨⟨hb1, by omega⟩, hb3, by omega⟩
  · obtain ⟨h1, h2, h3, h4⟩ := centers_in_bounds X h w hs hlen p hp
    exact ⟨⟨h1, h2⟩, h3, h4⟩

theorem folded_set_subset_box (X : NDArray) (h w : Nat) (hs : X.shape = [h, w])
    (hh1 : 1 ≤ h) (hw1 : 1 ≤ w) (radius : Int) :
    folded_coordinate_set X radius ⊆ grid_box h w := by
  have hh : X.shape.getD 0 0 = h := by rw [hs]; rfl
  have hw2 : X.shape.getD 1 0 = w := by rw [hs]; rfl
  intro p hp
  rw [folded_coordinate_set, hh, hw2, Finset.mem_image] at hp
  obtain ⟨q, _, rfl⟩ := hp
  rw [grid_box, Finset.mem_product, Finset.mem_Ico, Finset.mem_Ico]
  have hhne : (h : Int) ≠ 0 := by exact_mod_cast Nat.pos_iff_ne_zero.mp hh1
  have hwne : (w : Int) ≠ 0 := by exact_mod_cast Nat.pos_iff_ne_zero.mp hw1
  have hhpos : (0 : Int) < (h : Int) := by exact_mod_cast hh1
  have hwpos : (0 : Int) < (w : Int) := by exact_mod_cast hw1
  exact ⟨⟨Int.emod_nonneg _ hhne, Int.emod_lt_of_pos _ hhpos⟩,
    Int.emod_nonneg _ hwne, Int.emod_lt_of_pos _ hwpos⟩

theorem countPositive_le_card_pruned (X : NDArray) (radius : Int) :
    countPositive X ≤ (pruned_coordinate_set X radius).card := by
  rw [← card_centers_toFinset]
  exact Finset.card_le_card (Finset.subset_union_right)

theorem countPositive_le_card_folded (X : NDArray) (h w : Nat)
    (hs : X.shape = [h, w]) (hlen : X.data.length = h * w) (radius : Int) :
    countPositive X ≤ (folded_coordinate_set X radius).card := by
  have hsub : (array_to_pos_center_coordinates X).toFinset.image
      (fun p : Int × Int =>
        (p.1 % (X.shape.getD 0 0 : Int), p.2 % (X.shape.getD 1 0 : Int))) ⊆
      folded_coordinate_set X radius := by
    rw [folded_coordinate_set]
    exact Finset.image_subset_image (Finset.subset_union_right)
  rw [fold_image_centers X h w hs hlen] at hsub
  rw [← card_centers_toFinset]
  exact Finset.card_le_card hsub

/-! ### The claims -/

/-- C1: for every center coordinate and every non-negative integer radius,
`manhattan_neighborhood center radius prune=false size` returns exactly the
set of coordinates whose Manhattan distance `d` to the center satisfies
`0 < d ≤ radius` — the closed L1 ball of that radius minus the center. -/
theorem manhattan_neighborhood_unpruned_is_punctured_ball (center : Int × Int)
    (radius : Int) (_hr : 0 ≤ radius) (size : Int × Int) (p : Int × Int) :
    p ∈ manhattan_neighborhood center radius false size ↔
      0 < manhattanDist p center ∧ manhattanDist p center ≤ radius :=
  mem_manhattan_neighborhood_false center radius size p

theorem manhattan_neighborhood_unpruned_is_punctured_ball_witness :
    (0 : Int) ≤ 3 ∧
      ((6, 7) ∈ manhattan_neighborhood (5, 5) 3 false (11, 11) ↔
        0 < manhattanDist (6, 7) (5, 5) ∧ manhattanDist (6, 7) (5, 5) ≤ 3) :=
  ⟨by decide,
    manhattan_neighborhood_unpruned_is_punctured_ball (5, 5) 3 (by decide)
      (11, 11) (6, 7)⟩

/-- C2: `count_positive_neighborhood_size` signals a validation error if and
only if the grid is not exactly 2-dimensional; no other input (radius value,
grid element values, empty axes) triggers an error. -/
theorem count_error_iff_not_two_dimensional (X : NDArray) (radius : Int)
    (wraparound : Bool) :
    (∃ msg, count_positive_neighborhood_size X radius wraparound =
      Except.error msg) ↔ X.shape.length ≠ 2 := by
  rw [count_eq_from_centers]
  split
  case isTrue hne =>
    exact ⟨fun _ => hne, fun _ => ⟨_, rfl⟩⟩
  case isFalse hne =>
    constructor
    · rintro ⟨msg, hmsg⟩
      exact Except.noConfusion hmsg
    · intro hx
      exact absurd hx hne

/-- C3: for every 2-dimensional grid in which no cell value is strictly
greater than 0, `count_positive_neighborhood_size` returns 0, for every
radius and for both wraparound settings. -/
theorem count_zero_of_no_positive_cell (X : NDArray) (radius : Int)
    (wraparound : Bool) (h2 : X.shape.length = 2)
    (hnp : ∀ v ∈ X.data, ¬(0 < v)) :
    count_positive_neighborhood_size X radius wraparound = Except.ok 0 := by
  have hc : array_to_pos_center_coordinates X = [] := by
    rw [array_to_pos_center_coordinates_eq]
    have hfil : (List.range X.data.length).filter
        (fun k => decide (0 < X.data.getD k 0)) = [] := by
      rw [List.filter_eq_nil_iff]
      intro k hk
      rw [List.mem_range] at hk
      simp only [decide_eq_true_eq]
      have hmem : X.data.getD k 0 ∈ X.data := by
        rw [List.getD_eq_getElem?_getD, List.getElem?_eq_getElem hk,
          Option.getD_some]
        exact List.getElem_mem hk
      exact hnp _ hmem
    rw [hfil]
    rfl
  rw [count_eq_from_centers, if_neg (by simp [h2]), hc]
  rfl

theorem count_zero_of_no_positive_cell_witness :
    (centers_to_array [] 3 3).shape.length = 2 ∧
      count_positive_neighborhood_size (centers_to_array [] 3 3) 3 true =
        Except.ok 0 :=
  ⟨by decide, count_zero_of_no_positive_cell (centers_to_array [] 3 3) 3 true
    (by decide) (by decide)⟩

/-- C4: for every 2-dimensional grid, `count_positive_neighborhood_size` at
radius 0 without wraparound equals the number of cells whose value is
strictly greater than 0 (each per-center neighborhood is empty and the
centers themselves are added back and counted). -/
theorem count_radius_zero_eq_positive_cells (X : NDArray)
    (h2 : X.shape.length = 2) :
    count_positive_neighborhood_size X 0 false =
      Except.ok (countPositive X) :=
  count_nonpos_radius_false X 0 h2 (le_refl 0)

theorem count_radius_zero_eq_positive_cells_witness :
    (centers_to_array [(2, 1), (7, 4)] 11 11).shape.length = 2 ∧
      count_positive_neighborhood_size
          (centers_to_array [(2, 1), (7, 4)] 11 11) 0 false =
        Except.ok (countPositive (centers_to_array [(2, 1), (7, 4)] 11 11)) :=
  ⟨by decide, count_radius_zero_eq_positive_cells
    (centers_to_array [(2, 1), (7, 4)] 11 11) (by decide)⟩

/-- C5: with pruning on, `manhattan_neighborhood` returns exactly the
generated coordinates passing the bounds check `0 ≤ x ≤ size.1 - 1` and
`0 ≤ y ≤ size.2 - 1`: every generated in-bounds coordinate is retained and
every coordinate strictly outside on either axis on either side is dropped. -/
theorem manhattan_neighborhood_pruning (center : Int × Int) (radius : Int)
    (size : Int × Int) (p : Int × Int) :
    p ∈ manhattan_neighborhood center radius true size ↔
      p ∈ manhattan_neighborhood center radius false size ∧
        (0 ≤ p.1 ∧ p.1 ≤ size.1 - 1 ∧ 0 ≤ p.2 ∧ p.2 ≤ size.2 - 1) := by
  rw [manhattan_neighborhood_true_eq, Finset.mem_filter]

/-- C6: with wraparound on, the count is the cardinality of the image of the
unfolded coordinate set under `(x, y) ↦ (x % shape₀, y % shape₁)` after
re-deduplication, and that count never exceeds the cardinality of the
unfolded coordinate set. -/
theorem count_wraparound_folds_and_shrinks (X : NDArray) (radius : Int)
    (h2 : X.shape.length = 2) :
    count_positive_neighborhood_size X radius true =
        Except.ok (folded_coordinate_set X radius).card ∧
      (folded_coordinate_set X radius).card ≤
        (unfolded_coordinate_set X radius).card :=
  ⟨count_eq_card_folded X radius h2, Finset.card_image_le⟩

theorem count_wraparound_folds_and_shrinks_witness :
    (centers_to_array [(0, 0)] 3 3).shape.length = 2 ∧
      (count_positive_neighborhood_size (centers_to_array [(0, 0)] 3 3) 1 true =
          Except.ok (folded_coordinate_set (centers_to_array [(0, 0)] 3 3) 1).card ∧
        (folded_coordinate_set (centers_to_array [(0, 0)] 3 3) 1).card ≤
          (unfolded_coordinate_set (centers_to_array [(0, 0)] 3 3) 1).card) :=
  ⟨by decide, count_wraparound_folds_and_shrinks (centers_to_array [(0, 0)] 3 3)
    1 (by decide)⟩

/-- C7: the result does not depend on the iteration order over the positive
centers: running the post-extraction steps on any permutation of the
extracted center list yields the same final count as
`count_positive_neighborhood_size` itself. -/
theorem count_independent_of_center_order (X : NDArray) (radius : Int)
    (wraparound : Bool) (l : List (Int × Int)) (h2 : X.shape.length = 2)
    (hperm : l.Perm (array_to_pos_center_coordinates X)) :
    count_positive_neighborhood_size X radius wraparound =
      Except.ok (count_from_centers l
        ((X.shape.getD 0 0 : Int), (X.shape.getD 1 0 : Int))
        radius wraparound) := by
  rw [count_eq_from_centers, if_neg (by simp [h2]),
    count_from_centers_perm (array_to_pos_center_coordinates X) l hperm.symm]

theorem count_independent_of_center_order_witness :
    (centers_to_array [(1, 1), (3, 2)] 5 5).shape.length = 2 ∧
      List.Perm [((3 : Int), (2 : Int)), (1, 1)]
        (array_to_pos_center_coordinates
          (centers_to_array [(1, 1), (3, 2)] 5 5)) ∧
      count_positive_neighborhood_size
          (centers_to_array [(1, 1), (3, 2)] 5 5) 2 false =
        Except.ok (count_from_centers [((3 : Int), (2 : Int)), (1, 1)]
          (((centers_to_array [(1, 1), (3, 2)] 5 5).shape.getD 0 0 : Int),
            ((centers_to_array [(1, 1), (3, 2)] 5 5).shape.getD 1 0 : Int))
          2 false) :=
  ⟨by decide, by decide, count_independent_of_center_order
    (centers_to_array [(1, 1), (3, 2)] 5 5) 2 false
    [((3 : Int), (2 : Int)), (1, 1)] (by decide) (by decide)⟩

/-- C8: transpose invariance: for every square 2-dimensional well-formed
grid and every radius, without wraparound, the count on the transposed grid
equals the count on the original grid. -/
theorem count_transpose_invariant (X : NDArray) (radius : Int) (h w : Nat)
    (hs : X.shape = [h, w]) (hwf : X.wf) (_hsq : h = w) :
    count_positive_neighborhood_size X.transpose radius false =
      count_positive_neighborhood_size X radius false := by
  have hlen := wf_prod_two X h w hs hwf
  have h2 : X.shape.length = 2 := by rw [hs]; rfl
  have h2t : (X.transpose).shape.length = 2 := by
    rw [transpose_shape X h w hs]; rfl
  rw [count_eq_card_pruned X radius h2,
    count_eq_card_pruned X.transpose radius h2t,
    pruned_set_transpose X h w hs hlen radius,
    Finset.card_image_of_injective _ Prod.swap_injective]

theorem count_transpose_invariant_witness :
    (centers_to_array [(0, 2), (1, 1)] 3 3).shape = [3, 3] ∧
      (centers_to_array [(0, 2), (1, 1)] 3 3).wf ∧ 3 = 3 ∧
      count_positive_neighborhood_size
          (centers_to_array [(0, 2), (1, 1)] 3 3).transpose 1 false =
        count_positive_neighborhood_size
          (centers_to_array [(0, 2), (1, 1)] 3 3) 1 false :=
  ⟨by decide, by unfold NDArray.wf; decide, rfl, count_transpose_invariant
    (centers_to_array [(0, 2), (1, 1)] 3 3) 1 3 3 (by decide)
    (by unfold NDArray.wf; decide) rfl⟩

/-- C9: for every well-formed 2-dimensional grid and every negative radius,
`count_positive_neighborhood_size` accepts the input without error and
behaves exactly as for radius 0: the result equals the number of positive
cells (0 if there are none). -/
theorem count_negative_radius_as_zero (X : NDArray) (radius : Int)
    (wraparound : Bool) (h2 : X.shape.length = 2) (hwf : X.wf)
    (hr : radius < 0) :
    count_positive_neighborhood_size X radius wraparound =
        count_positive_neighborhood_size X 0 wraparound ∧
      count_positive_neighborhood_size X radius wraparound =
        Except.ok (countPositive X) := by
  cases wraparound
  · have ha := count_nonpos_radius_false X radius h2 (le_of_lt hr)
    have hb := count_nonpos_radius_false X 0 h2 (le_refl 0)
    exact ⟨ha.trans hb.symm, ha⟩
  · have ha := count_nonpos_radius_true X radius h2 hwf (le_of_lt hr)
    have hb := count_nonpos_radius_true X 0 h2 hwf (le_refl 0)
    exact ⟨ha.trans hb.symm, ha⟩

theorem count_negative_radius_as_zero_witness :
    (centers_to_array [(1, 1)] 3 3).shape.length = 2 ∧
      (centers_to_array [(1, 1)] 3 3).wf ∧ (-2 : Int) < 0 ∧
      (count_positive_neighborhood_size (centers_to_array [(1, 1)] 3 3)
          (-2) true =
        count_positive_neighborhood_size (centers_to_array [(1, 1)] 3 3)
          0 true ∧
      count_positive_neighborhood_size (centers_to_array [(1, 1)] 3 3)
          (-2) true =
        Except.ok (countPositive (centers_to_array [(1, 1)] 3 3))) :=
  ⟨by decide, by unfold NDArray.wf; decide, by decide,
    count_negative_radius_as_zero (centers_to_array [(1, 1)] 3 3) (-2) true
      (by decide) (by unfold NDArray.wf; decide) (by decide)⟩

/-- C10: for every well-formed grid of shape `[h, w]` with `h, w ≥ 1`, every
non-negative radius and both wraparound settings, the result is bounded
below by the number of positive cells and above by `h * w`. -/
theorem count_bounded_by_grid (X : NDArray) (radius : Int) (wraparound : Bool)
    (h w : Nat) (hs : X.shape = [h, w]) (hwf : X.wf) (hh1 : 1 ≤ h)
    (hw1 : 1 ≤ w) (_hr : 0 ≤ radius) :
    ∃ n, count_positive_neighborhood_size X radius wraparound =
        Except.ok n ∧ countPositive X ≤ n ∧ n ≤ h * w := by
  have hlen := wf_prod_two X h w hs hwf
  have h2 : X.shape.length = 2 := by rw [hs]; rfl
  cases wraparound
  · refine ⟨(pruned_coordinate_set X radius).card,
      count_eq_card_pruned X radius h2,
      countPositive_le_card_pruned X radius, ?_⟩
    calc (pruned_coordinate_set X radius).card
        ≤ (grid_box h w).card :=
          Finset.card_le_card (pruned_set_subset_box X h w hs hlen radius)
      _ = h * w := grid_box_card h w
  · refine ⟨(folded_coordinate_set X radius).card,
      count_eq_card_folded X radius h2,
      countPositive_le_card_folded X h w hs hlen radius, ?_⟩
    calc (folded_coordinate_set X radius).card
        ≤ (grid_box h w).card :=
          Finset.card_le_card (folded_set_subset_box X h w hs hh1 hw1 radius)
      _ = h * w := grid_box_card h w

theorem count_bounded_by_grid_witness :
    (centers_to_array [(0, 0)] 2 2).shape = [2, 2] ∧
      (centers_to_array [(0, 0)] 2 2).wf ∧
      (∃ n, count_positive_neighborhood_size (centers_to_array [(0, 0)] 2 2)
          1 true = Except.ok n ∧
        countPositive (centers_to_array [(0, 0)] 2 2) ≤ n ∧ n ≤ 2 * 2) :=
  ⟨by decide, by unfold NDArray.wf; decide,
    count_bounded_by_grid (centers_to_array [(0, 0)] 2 2) 1 true 2 2
      (by decide) (by unfold NDArray.wf; decide) (by decide) (by decide)
      (by decide)⟩

